import Mathlib

set_option autoImplicit false

/-!
Verification of the coordinator of a streaming/materialized-view database
(`src/coord/src/coord.rs`): the timestamp oracle, the per-arrangement
frontier tracker (`update_upper` / `maintenance`), timestamp determination
for peeks (`determine_timestamp`), dataflow shipping (`ship_dataflow`),
the two-phase sink-creation completion (`message_sink_connector_ready`)
and peek-response aggregation.

Timestamps are 64-bit unsigned milliseconds; they are modelled as `Nat`
(saturating subtraction of the source is ordinary truncated subtraction on
`Nat`; the one place the source names `u64::max_value()` is modelled
explicitly).  For this totally ordered timestamp domain an antichain has
zero or one elements, so antichains are modelled as `Option Nat` with
`none` the empty antichain.
-/

namespace Mz

/-- Timestamps: milliseconds since the epoch, a 64-bit unsigned integer in
the source. -/
abbrev Timestamp := Nat

/-- Source value `Timestamp::max_value()` (`u64::MAX`), used by `determine_timestamp`
when every input trace is complete. -/
def timestampMax : Timestamp := 2 ^ 64 - 1

/-- Global identifiers of catalog items and arrangements. -/
inductive GlobalId where
  | user (n : Nat)
  | system (n : Nat)
  | transient (n : Nat)
deriving DecidableEq

/-- An antichain over the totally ordered timestamp domain: `none` is the
empty antichain, `some t` the singleton frontier at `t`. -/
abbrev Antichain := Option Timestamp

/-- Source operation `Antichain::less_equal(t)`: some element of the antichain is `≤ t`. -/
def acLessEqual : Antichain → Timestamp → Bool
  | none, _ => false
  | some s, t => s ≤ t

/-- Frontier-lattice join (`Antichain::join_assign`); the empty antichain
is the greatest frontier. -/
def acJoin : Antichain → Antichain → Antichain
  | none, _ => none
  | _, none => none
  | some a, some b => some (max a b)

/-- Frontier-lattice meet, computed in the source by extending one
antichain with the elements of the other and keeping minimal elements. -/
def acMeet : Antichain → Antichain → Antichain
  | none, b => b
  | some a, none => some a
  | some a, some b => some (min a b)

/-- The frontier order (source trait method on antichains):
every element of the right-hand frontier is greater or equal to some
element of the left-hand one. -/
def acLe : Antichain → Antichain → Bool
  | _, none => true
  | none, some _ => false
  | some a, some b => a ≤ b

/-- Source operation `Lattice::advance_by`: advance a timestamp to the given frontier; a
no-op on the empty frontier. -/
def advance_by (t : Timestamp) : Antichain → Timestamp
  | none => t
  | some s => max t s

/-- A `MutableAntichain` (and likewise a `ChangeBatch`): a multiset of
timestamp/occurrence-count deltas.  The reported frontier is the least
time whose accumulated count is positive. -/
abbrev MutableAntichain := List (Timestamp × Int)

/-- Net occurrence count of time `t` in the multiset. -/
def macCount (m : MutableAntichain) (t : Timestamp) : Int :=
  (m.filter (fun p => decide (p.1 = t))).foldl (fun a p => a + p.2) 0

/-- The frontier of a `MutableAntichain`: the minimum of the times with
positive net count (empty when there is none). -/
def macFrontier (m : MutableAntichain) : Antichain :=
  ((m.map Prod.fst).filter (fun t => decide (0 < macCount m t))).foldr
    (fun t a => acMeet (some t) a) none

/-- Per-arrangement frontier information tracked by the coordinator:
the `upper` of available times (one element per worker), the compaction
frontier `since`, and the optional compaction window. -/
structure Frontiers where
  upper : MutableAntichain
  since : Antichain
  compaction_window_ms : Option Timestamp
deriving DecidableEq

/-- Modelled from the spec: `Frontiers::new(num_workers, window)` (the
`arrangement_state` module is not among the sources).  Each of the
`num_workers` workers contributes the minimum timestamp to the upper, and
the since frontier starts at the minimum timestamp. -/
def Frontiers.new (num_workers : Nat) (window : Option Timestamp) : Frontiers :=
  { upper := List.replicate num_workers (0, (1 : Int))
    since := some 0
    compaction_window_ms := window }

/-- Modelled from the spec: `Frontiers::advance_since` stores the derived
compaction frontier as the new `since` ("derive a new compaction frontier
and store it as the new `since`"). -/
def Frontiers.advance_since (f : Frontiers) (frontier : Antichain) : Frontiers :=
  { f with since := frontier }

/-- The coordinator state consumed by the verified operations.  Fields of
the source struct untouched by them (catalog handles, channels,
`active_tails`, the transient-id counter, configuration) are elided. -/
structure Coord where
  indexes : List (GlobalId × Frontiers)
  since_updates : List (GlobalId × Antichain)
  logical_compaction_window_ms : Option Timestamp
  num_timely_workers : Nat
  read_lower_bound : Timestamp
  closed_up_to : Timestamp
  last_op_was_read : Bool
  need_advance : Bool
deriving DecidableEq

/-- Lookup in the arrangement map (a hash map in the source, keys
unique). -/
def lookupIdx : List (GlobalId × Frontiers) → GlobalId → Option Frontiers
  | [], _ => none
  | p :: rest, id => if p.1 = id then some p.2 else lookupIdx rest id

/-- Replace the record stored under an existing key. -/
def updateIdx (ixs : List (GlobalId × Frontiers)) (id : GlobalId) (f : Frontiers) :
    List (GlobalId × Frontiers) :=
  ixs.map (fun p => if p.1 = id then (p.1, f) else p)

/-- Hash-map `insert`: replace the record when the key is present,
otherwise add it. -/
def insertIdx (ixs : List (GlobalId × Frontiers)) (id : GlobalId) (f : Frontiers) :
    List (GlobalId × Frontiers) :=
  if (lookupIdx ixs id).isSome then updateIdx ixs id f else ixs ++ [(id, f)]

/-- Modelled from the spec: `since_of(id)`. -/
def since_of (st : Coord) (id : GlobalId) : Option Antichain :=
  (lookupIdx st.indexes id).map Frontiers.since

/-- Modelled from the spec: `upper_of(id)` (the frontier reported by the
arrangement's mutable upper). -/
def upper_of (st : Coord) (id : GlobalId) : Option Antichain :=
  (lookupIdx st.indexes id).map (fun f => macFrontier f.upper)

/-- Modelled from the spec: `least_valid_since(ids)`, the frontier-lattice
join of the since frontiers of the listed ids starting from the minimum
element; it lower-bounds the `as_of` of new dataflows.  The source panics
on an untracked id; here such an id contributes nothing, and theorems that
need it assume trackedness. -/
def least_valid_since (st : Coord) (ids : List GlobalId) : Antichain :=
  ids.foldl (fun acc id => acJoin acc ((since_of st id).getD (some 0))) (some 0)

/-- Modelled from the spec: `greatest_open_upper(ids)`, extending an empty
antichain with every element of the listed uppers, i.e. their
frontier-lattice meet. -/
def greatest_open_upper (st : Coord) (ids : List GlobalId) : Antichain :=
  ids.foldl (fun acc id => acMeet acc ((upper_of st id).getD none)) none

/-- Source function `Coordinator::update_upper` (coord.rs): apply a batch of progress
deltas to the named arrangement's upper.  If the frontier actually changed
and a compaction window is set and the new upper is non-empty, derive the
compaction frontier `w * ((t − w) / w)` for each time `t` of the new
upper; when it differs from the current since, store it and queue a
since-update for the next maintenance tick.  An untracked id leaves the
state unchanged. -/
def update_upper (st : Coord) (name : GlobalId) (changes : MutableAntichain) : Coord :=
  match lookupIdx st.indexes name with
  | none => st
  | some index_state =>
      let new_upper := index_state.upper ++ changes
      let keep : Coord :=
        { st with indexes := updateIdx st.indexes name { index_state with upper := new_upper } }
      if macFrontier new_upper = macFrontier index_state.upper then keep
      else
        match index_state.compaction_window_ms with
        | none => keep
        | some w =>
            match macFrontier new_upper with
            | none => keep
            | some t =>
                let compaction_frontier : Antichain := some (w * ((t - w) / w))
                if index_state.since = compaction_frontier then keep
                else
                  { st with
                    indexes := updateIdx st.indexes name
                      (Frontiers.advance_since { index_state with upper := new_upper }
                        compaction_frontier)
                    since_updates := st.since_updates ++ [(name, compaction_frontier)] }

/-- Source function `Coordinator::maintenance` (coord.rs): drop pending since-updates with
an empty frontier, and when any remain, drain them into one
`AllowCompaction` broadcast (returned as `some payload`). -/
def maintenance (st : Coord) : Coord × Option (List (GlobalId × Antichain)) :=
  let retained := st.since_updates.filter (fun p => decide (p.2 ≠ none))
  if retained.isEmpty then
    ({ st with since_updates := retained }, none)
  else
    ({ st with since_updates := [] }, some retained)

/-! ### Timestamp oracle -/

/-- Source function `Coordinator::get_ts`: read the wall clock (supplied here as the
parameter `wall`, in milliseconds) and clamp it up to `read_lower_bound`;
record that local inputs must be advanced. -/
def get_ts (wall : Timestamp) (st : Coord) : Timestamp × Coord :=
  let st := { st with need_advance := true }
  if wall < st.read_lower_bound then (st.read_lower_bound, st) else (wall, st)

/-- Source function `Coordinator::get_read_ts`: assign a timestamp for a read. -/
def get_read_ts (wall : Timestamp) (st : Coord) : Timestamp × Coord :=
  let p := get_ts wall st
  (p.1, { p.2 with last_op_was_read := true, read_lower_bound := p.1 })

/-- Source function `Coordinator::get_write_ts`: assign a timestamp for a write; a write
following a read is bumped to be strictly larger than that read. -/
def get_write_ts (wall : Timestamp) (st : Coord) : Timestamp × Coord :=
  let p :=
    if st.last_op_was_read then
      let st := { st with last_op_was_read := false }
      let q := get_ts wall st
      (max q.1 (st.read_lower_bound + 1), q.2)
    else
      get_ts wall st
  let rlb := max p.1 p.2.closed_up_to
  (rlb, { p.2 with read_lower_bound := rlb })

/-- An operation on the timestamp oracle. -/
inductive TsOp where
  | read
  | write
deriving DecidableEq

/-- One oracle call, with the wall-clock value observed during it. -/
def ts_step : TsOp → Timestamp → Coord → Timestamp × Coord
  | TsOp.read, wall, st => get_read_ts wall st
  | TsOp.write, wall, st => get_write_ts wall st

/-- Run a sequence of oracle calls, collecting the returned timestamps. -/
def ts_run : List (TsOp × Timestamp) → Coord → List Timestamp × Coord
  | [], st => ([], st)
  | (op, w) :: rest, st =>
      let p := ts_step op w st
      let q := ts_run rest p.2
      (p.1 :: q.1, q.2)

/-! ### Timestamp determination for peeks -/

/-- Source type `PeekWhen`: when a peek should occur. -/
inductive PeekWhen where
  | Immediately
  | AtTimestamp (t : Timestamp)

/-- The slice of the catalog interface consumed by `determine_timestamp`
(the catalog lives outside coord.rs): `nearest_indexes` maps the ids a
relation expression uses to the nearest index ids together with whether
every dependency is materialized, and `uses_tables` reports whether an id
transitively uses a table. -/
structure CatalogView where
  nearest_indexes : List GlobalId → List GlobalId × Bool
  uses_tables : GlobalId → Bool

/-- The error cases of `determine_timestamp` (`bail!` sites, represented
structurally rather than as formatted strings). -/
inductive TimestampError where
  | nonMaterialized
  | noCompleteTimestamps (unstarted : List GlobalId)
  | notValidForAllInputs (ts : Timestamp) (invalid : List (GlobalId × Option Antichain))
deriving DecidableEq

/-- Source function `Coordinator::determine_timestamp` (coord.rs): pick a timestamp for a
peek over the relation expression whose `global_uses` is `uses_ids`, then
check it against the `since` frontiers of the participating indexes.  The
relation expression enters the source function only through
`global_uses()`, so it is represented here by that list. -/
def determine_timestamp (cat : CatalogView) (st : Coord) (wall : Timestamp)
    (uses_ids : List GlobalId) (when : PeekWhen) :
    Except TimestampError Timestamp × Coord :=
  let np := cat.nearest_indexes uses_ids
  let index_ids := np.1
  let indexes_complete := np.2
  let since := least_valid_since st index_ids
  let cand : Except TimestampError (Timestamp × Coord) :=
    match when with
    | PeekWhen.AtTimestamp t => Except.ok (t, st)
    | PeekWhen.Immediately =>
        if !indexes_complete then
          Except.error TimestampError.nonMaterialized
        else
          let base : Except TimestampError (Timestamp × Coord) :=
            if uses_ids.any (fun id => cat.uses_tables id) then
              Except.ok (get_read_ts wall st)
            else
              match greatest_open_upper st index_ids with
              | some u =>
                  if 0 < u then
                    Except.ok (u - 1, st)
                  else
                    Except.error (TimestampError.noCompleteTimestamps
                      (index_ids.filter
                        (fun id => acLessEqual ((upper_of st id).getD none) 0)))
              | none => Except.ok (timestampMax, st)
          match base with
          | Except.error e => Except.error e
          | Except.ok p =>
              Except.ok ((if acLessEqual since p.1 then p.1 else advance_by p.1 since), p.2)
  match cand with
  | Except.error e => (Except.error e, st)
  | Except.ok p =>
      if acLessEqual since p.1 then
        (Except.ok p.1, p.2)
      else
        (Except.error (TimestampError.notValidForAllInputs p.1
          ((index_ids.filter
              (fun id => !(acLessEqual ((since_of st id).getD none) p.1))).map
            (fun id => (id, since_of st id)))), p.2)

/-! ### Dataflow shipping -/

/-- The slice of a dataflow description consumed by `ship_dataflow`:
imported indexes (by id), exported indexes (by id) and the optional
`as_of` frontier.  Sink exports only drive system-table bookkeeping in the
source and are elided. -/
structure DataflowDesc where
  index_imports : List GlobalId
  index_exports : List GlobalId
  as_of : Option Antichain

/-- Source function `Coordinator::ship_dataflow` (coord.rs): join the since frontiers of
the imported indexes (starting from the minimum element), start tracking
every exported index with that since and the default compaction window,
then make the dataflow's `as_of` at least the join — raising a too-small
caller-supplied `as_of`, and binding an absent one to the join — and
broadcast the resulting dataflow (returned here alongside the state). -/
def ship_dataflow (st : Coord) (d : DataflowDesc) : Coord × DataflowDesc :=
  let since := d.index_imports.foldl
    (fun acc id => acJoin acc ((since_of st id).getD (some 0))) (some 0)
  let tracked := d.index_exports.foldl
    (fun ixs id => insertIdx ixs id
      (Frontiers.advance_since
        (Frontiers.new st.num_timely_workers st.logical_compaction_window_ms) since))
    st.indexes
  let st := { st with indexes := tracked }
  let d :=
    match d.as_of with
    | some a => if acLe since a then d else { d with as_of := some (acJoin a since) }
    | none => { d with as_of := some since }
  (st, d)

/-! ### Sink-connector completion -/

/-- The two-state sink connector machine of a catalog sink item. -/
inductive SinkConnectorState where
  | Pending
  | Ready
deriving DecidableEq

/-- The response sent back to the client for a sink creation. -/
inductive SinkResponse where
  | CreatedSink (existed : Bool)
  | SinkError
deriving DecidableEq

/-- The observable effects of handling one `SinkConnectorReady` message. -/
structure SinkReadyEffects where
  catalog : List (GlobalId × SinkConnectorState)
  response : SinkResponse
  shipped_sink_dataflow : Bool
deriving DecidableEq

/-- Source function `Coordinator::message_sink_connector_ready` together with
`handle_sink_connector_ready` (coord.rs).  Modelled from the spec for the
catalog collaborator (outside the sources): the catalog is the map of
sink ids to connector state, `try_get_by_id` is lookup, and the
drop-then-create transact of `handle_sink_connector_ready` replaces the
placeholder with a Ready connector.  Shipping the sink dataflow is
recorded as a flag. -/
def message_sink_connector_ready (catalog : List (GlobalId × SinkConnectorState))
    (id : GlobalId) (build_succeeded : Bool) : SinkReadyEffects :=
  if build_succeeded then
    if (catalog.find? (fun p => decide (p.1 = id))).isSome then
      { catalog := catalog.map
          (fun p => if p.1 = id then (p.1, SinkConnectorState.Ready) else p)
        response := SinkResponse.CreatedSink false
        shipped_sink_dataflow := true }
    else
      { catalog := catalog
        response := SinkResponse.CreatedSink false
        shipped_sink_dataflow := false }
  else
    { catalog := catalog.filter (fun p => decide (p.1 ≠ id))
      response := SinkResponse.SinkError
      shipped_sink_dataflow := false }

/-! ### Peek-response aggregation -/

/-- Row payloads are never inspected by the aggregation logic; they are
modelled as an arbitrary countable payload. -/
abbrev Row := Nat

/-- Source type `PeekResponse`: what one worker returns for a peek. -/
inductive PeekResponse where
  | Rows (rows : List Row)
  | Error (e : String)
  | Canceled
deriving DecidableEq

/-- The fold step of the peek-response aggregation in
`sequence_peek` (coord.rs): first argument the accumulator `memo`, second
the incoming worker response. -/
def fold_peek : PeekResponse → PeekResponse → PeekResponse
  | PeekResponse.Rows memo, PeekResponse.Rows rows => PeekResponse.Rows (memo ++ rows)
  | PeekResponse.Error e, _ => PeekResponse.Error e
  | _, PeekResponse.Error e => PeekResponse.Error e
  | PeekResponse.Canceled, _ => PeekResponse.Canceled
  | _, PeekResponse.Canceled => PeekResponse.Canceled

/-- Aggregation of the worker responses (the source folds them with `try_fold`),
starting from an empty row set. -/
def peek_aggregate (resps : List PeekResponse) : PeekResponse :=
  resps.foldl fold_peek (PeekResponse.Rows [])

/-- The row list of a response (empty for errors and cancellations). -/
def rowsOf : PeekResponse → List Row
  | PeekResponse.Rows rs => rs
  | _ => []

/-- The `map_ok` stage of `sequence_peek`: apply the row-set finishing to
an aggregated `Rows` response, leave other responses unchanged.  The
finishing itself (ORDER BY / LIMIT / OFFSET / projection) lives outside
the sources and is a parameter. -/
def apply_finishing (fin : List Row → List Row) : PeekResponse → PeekResponse
  | PeekResponse.Rows rows => PeekResponse.Rows (fin rows)
  | r => r

/-! ### Helper lemmas about the arrangement map -/

theorem lookupIdx_updateIdx_self (ixs : List (GlobalId × Frontiers)) (id : GlobalId)
    (f : Frontiers) :
    lookupIdx (updateIdx ixs id f) id = (lookupIdx ixs id).map (fun _ => f) := by
  induction ixs with
  | nil => rfl
  | cons p rest ih =>
      by_cases h : p.1 = id
      · simp [updateIdx, lookupIdx, h]
      · simp only [updateIdx, List.map_cons, if_neg h]
        simpa [lookupIdx, h, updateIdx] using ih

theorem lookupIdx_updateIdx_ne (ixs : List (GlobalId × Frontiers)) (id id' : GlobalId)
    (f : Frontiers) (h : id' ≠ id) :
    lookupIdx (updateIdx ixs id f) id' = lookupIdx ixs id' := by
  induction ixs with
  | nil => rfl
  | cons p rest ih =>
      by_cases hp : p.1 = id
      · have hne : p.1 ≠ id' := by
          rw [hp]
          exact fun hc => h hc.symm
        simp only [updateIdx, List.map_cons, if_pos hp]
        simp only [lookupIdx, if_neg hne, if_neg (hp ▸ hne)]
        simpa [updateIdx] using ih
      · simp only [updateIdx, List.map_cons, if_neg hp]
        by_cases hq : p.1 = id'
        · simp [lookupIdx, hq]
        · simp only [lookupIdx, if_neg hq]
          simpa [updateIdx] using ih

theorem lookupIdx_append (l₁ l₂ : List (GlobalId × Frontiers)) (id : GlobalId) :
    lookupIdx (l₁ ++ l₂) id =
      match lookupIdx l₁ id with
      | some v => some v
      | none => lookupIdx l₂ id := by
  induction l₁ with
  | nil => rfl
  | cons p rest ih =>
      by_cases h : p.1 = id
      · simp [lookupIdx, h]
      · simpa [lookupIdx, h] using ih

theorem lookupIdx_insertIdx_self (ixs : List (GlobalId × Frontiers)) (id : GlobalId)
    (f : Frontiers) :
    lookupIdx (insertIdx ixs id f) id = some f := by
  unfold insertIdx
  by_cases h : (lookupIdx ixs id).isSome
  · rw [if_pos h, lookupIdx_updateIdx_self]
    cases hl : lookupIdx ixs id with
    | none => rw [hl] at h; simp at h
    | some v => rfl
  · rw [if_neg h, lookupIdx_append]
    cases hl : lookupIdx ixs id with
    | none => simp [lookupIdx]
    | some v => rw [hl] at h; simp at h

theorem lookupIdx_insertIdx_ne (ixs : List (GlobalId × Frontiers)) (id id' : GlobalId)
    (f : Frontiers) (h : id' ≠ id) :
    lookupIdx (insertIdx ixs id f) id' = lookupIdx ixs id' := by
  unfold insertIdx
  by_cases hs : (lookupIdx ixs id).isSome
  · rw [if_pos hs, lookupIdx_updateIdx_ne _ _ _ _ h]
  · rw [if_neg hs, lookupIdx_append]
    cases hl : lookupIdx ixs id' with
    | none =>
        simp only [lookupIdx]
        rw [if_neg (Ne.symm h)]
    | some v => rfl

/-! ### Claim theorems: frontier tracker -/

/-- Claim C9: calling `update_upper` with an id that has no `Frontiers`
record leaves the whole coordinator state unchanged. -/
theorem C9_update_upper_untracked (st : Coord) (id : GlobalId)
    (changes : MutableAntichain) (h : lookupIdx st.indexes id = none) :
    update_upper st id changes = st := by
  unfold update_upper
  rw [h]

/-- Witness for C9 at a concrete input. -/
theorem C9_update_upper_untracked_witness :
    lookupIdx (Coord.mk [] [] none 1 0 0 false false).indexes (GlobalId.user 7) = none ∧
      update_upper (Coord.mk [] [] none 1 0 0 false false) (GlobalId.user 7) [(3, 1)] =
        Coord.mk [] [] none 1 0 0 false false :=
  ⟨rfl, C9_update_upper_untracked _ _ _ rfl⟩

/-- Claim C10: an `AllowCompaction` broadcast produced by `maintenance`
never contains a pair with an empty frontier, and is only produced when at
least one non-empty update remains. -/
theorem C10_maintenance_no_empty_frontier (st st' : Coord)
    (msg : List (GlobalId × Antichain)) (h : maintenance st = (st', some msg)) :
    msg ≠ [] ∧ ∀ p ∈ msg, p.2 ≠ none := by
  unfold maintenance at h
  by_cases he : (st.since_updates.filter (fun p => decide (p.2 ≠ none))).isEmpty
  · rw [if_pos he] at h
    exact absurd (congrArg Prod.snd h) (by simp)
  · rw [if_neg he] at h
    have hmsg : msg = st.since_updates.filter (fun p => decide (p.2 ≠ none)) := by
      have := congrArg Prod.snd h
      simpa using this.symm
    constructor
    · rw [hmsg]
      intro hnil
      rw [hnil] at he
      simp at he
    · intro p hp
      rw [hmsg] at hp
      have := List.of_mem_filter hp
      simpa using this

/-- A concrete state with one non-empty and one empty pending since-update. -/
def c10_state : Coord :=
  { indexes := []
    since_updates := [(GlobalId.user 1, some 5), (GlobalId.user 2, none)]
    logical_compaction_window_ms := none
    num_timely_workers := 1
    read_lower_bound := 0
    closed_up_to := 0
    last_op_was_read := false
    need_advance := false }

/-- Witness for C10 at a concrete input. -/
theorem C10_maintenance_no_empty_frontier_witness :
    maintenance c10_state =
        ({ c10_state with since_updates := [] }, some [(GlobalId.user 1, some 5)]) ∧
      ([(GlobalId.user 1, (some 5 : Antichain))] ≠ [] ∧
        ∀ p ∈ [(GlobalId.user 1, (some 5 : Antichain))], p.2 ≠ none) :=
  ⟨by decide,
    C10_maintenance_no_empty_frontier c10_state { c10_state with since_updates := [] }
      [(GlobalId.user 1, some 5)] (by decide)⟩

/-- The arrangement id of scenario S5. -/
def s5_id : GlobalId := GlobalId.user 1

/-- The tracked state of scenario S5: one arrangement whose upper frontier
is at 10, whose since is the initial minimum frontier, with compaction
window 100. -/
def s5_state : Coord :=
  { indexes := [(s5_id, { upper := [(10, 1)], since := some 0, compaction_window_ms := some 100 })]
    since_updates := []
    logical_compaction_window_ms := some 100
    num_timely_workers := 1
    read_lower_bound := 0
    closed_up_to := 0
    last_op_was_read := false
    need_advance := false }

/-- The progress report of scenario S5: the worker moves its frontier
element from 10 to 120. -/
def s5_changes : MutableAntichain := [(120, 1), (10, -1)]

/-- Claim C1 counterexample: in scenario S5 (upper advanced from 10 to 120,
compaction window 100) the resulting since frontier is not 100, and the
next maintenance call does not broadcast the pair (id, 100): the derived
compaction frontier is `100 * ((120 − 100) / 100) = 0`, not 100. -/
theorem C1_counterexample :
    since_of (update_upper s5_state s5_id s5_changes) s5_id ≠ some (some 100) ∧
      (maintenance (update_upper s5_state s5_id s5_changes)).2 ≠ some [(s5_id, some 100)] := by
  decide

/-- Claim C1 (amended): in scenario S5 the upper frontier does advance
from 10 to 120, but the derived compaction frontier is
`100 * ((120 − 100) / 100) = 0`, equal to the arrangement's current since,
so the since frontier stays at 0, no since-update is queued, and the next
maintenance call broadcasts nothing. -/
theorem C1_amended :
    upper_of s5_state s5_id = some (some 10) ∧
      upper_of (update_upper s5_state s5_id s5_changes) s5_id = some (some 120) ∧
      since_of (update_upper s5_state s5_id s5_changes) s5_id = some (some 0) ∧
      (update_upper s5_state s5_id s5_changes).since_updates = [] ∧
      (maintenance (update_upper s5_state s5_id s5_changes)).2 = none := by
  decide

/-- Claim C2: for a tracked arrangement with compaction window `w`, when a
change batch actually moves the upper frontier, a non-empty new upper
yields exactly the since frontier `w * ((t − w) / w)` for the time `t` of
the new upper (subtraction saturating, division integral), while an empty
new upper leaves the since frontier unchanged and queues no compaction. -/
theorem C2_compaction_frontier (st : Coord) (name : GlobalId)
    (changes : MutableAntichain) (index_state : Frontiers) (w : Timestamp)
    (hlook : lookupIdx st.indexes name = some index_state)
    (hw : index_state.compaction_window_ms = some w)
    (hch : macFrontier (index_state.upper ++ changes) ≠ macFrontier index_state.upper) :
    (∀ t, macFrontier (index_state.upper ++ changes) = some t →
        since_of (update_upper st name changes) name = some (some (w * ((t - w) / w)))) ∧
      (macFrontier (index_state.upper ++ changes) = none →
        since_of (update_upper st name changes) name = some index_state.since ∧
          (update_upper st name changes).since_updates = st.since_updates) := by
  constructor
  · intro t ht
    have hch' : some t ≠ macFrontier index_state.upper := ht ▸ hch
    simp only [update_upper, hlook, hw, ht]
    rw [if_neg hch']
    by_cases hs : index_state.since = some (w * ((t - w) / w))
    · rw [if_pos hs]
      simp [since_of, lookupIdx_updateIdx_self, hlook, hs]
    · rw [if_neg hs]
      simp [since_of, lookupIdx_updateIdx_self, hlook, Frontiers.advance_since]
  · intro ht
    have hch' : (none : Antichain) ≠ macFrontier index_state.upper := ht ▸ hch
    simp only [update_upper, hlook, hw, ht]
    rw [if_neg hch']
    constructor
    · simp [since_of, lookupIdx_updateIdx_self, hlook]
    · rfl

/-- Witness for C2: the arrangement of scenario S5 advanced to upper 220,
where the derived since frontier is `100 * ((220 − 100) / 100) = 100`. -/
theorem C2_compaction_frontier_witness :
    (lookupIdx s5_state.indexes s5_id =
        some { upper := [(10, 1)], since := some 0, compaction_window_ms := some 100 } ∧
      macFrontier (([((10 : Timestamp), (1 : Int))]) ++ [(220, 1), (10, -1)]) = some 220 ∧
      macFrontier (([((10 : Timestamp), (1 : Int))]) ++ [(220, 1), (10, -1)]) ≠
        macFrontier [((10 : Timestamp), (1 : Int))]) ∧
      since_of (update_upper s5_state s5_id [(220, 1), (10, -1)]) s5_id =
        some (some (100 * ((220 - 100) / 100))) :=
  ⟨⟨by decide, by decide, by decide⟩,
    (C2_compaction_frontier s5_state s5_id [(220, 1), (10, -1)]
        { upper := [(10, 1)], since := some 0, compaction_window_ms := some 100 } 100
        (by decide) rfl (by decide)).1 220 (by decide)⟩

/-! ### Helper lemmas about the timestamp oracle -/

theorem get_ts_fst (wall : Timestamp) (st : Coord) :
    (get_ts wall st).1 = max wall st.read_lower_bound := by
  unfold get_ts
  by_cases h : wall < st.read_lower_bound
  · rw [if_pos h]
    exact (Nat.max_eq_right (Nat.le_of_lt h)).symm
  · rw [if_neg h]
    exact (Nat.max_eq_left (Nat.le_of_not_lt h)).symm

theorem get_ts_snd_rlb (wall : Timestamp) (st : Coord) :
    (get_ts wall st).2.read_lower_bound = st.read_lower_bound := by
  unfold get_ts
  by_cases h : wall < st.read_lower_bound
  · rw [if_pos h]
  · rw [if_neg h]

theorem get_ts_snd_closed (wall : Timestamp) (st : Coord) :
    (get_ts wall st).2.closed_up_to = st.closed_up_to := by
  unfold get_ts
  by_cases h : wall < st.read_lower_bound
  · rw [if_pos h]
  · rw [if_neg h]

theorem get_ts_snd_last (wall : Timestamp) (st : Coord) :
    (get_ts wall st).2.last_op_was_read = st.last_op_was_read := by
  unfold get_ts
  by_cases h : wall < st.read_lower_bound
  · rw [if_pos h]
  · rw [if_neg h]

/-- After any oracle call, `read_lower_bound` holds the value the call
returned. -/
theorem ts_step_rlb_eq (op : TsOp) (w : Timestamp) (st : Coord) :
    (ts_step op w st).2.read_lower_bound = (ts_step op w st).1 := by
  cases op with
  | read => rfl
  | write => rfl

/-- Each oracle call returns at least the current `read_lower_bound`. -/
theorem ts_step_ge (op : TsOp) (w : Timestamp) (st : Coord) :
    st.read_lower_bound ≤ (ts_step op w st).1 := by
  cases op with
  | read =>
      show st.read_lower_bound ≤ (get_read_ts w st).1
      unfold get_read_ts
      rw [get_ts_fst]
      exact Nat.le_max_right _ _
  | write =>
      show st.read_lower_bound ≤ (get_write_ts w st).1
      unfold get_write_ts
      by_cases h : st.last_op_was_read
      · simp only [if_pos h]
        refine Nat.le_trans ?_ (Nat.le_max_left _ _)
        exact Nat.le_trans (Nat.le_succ _) (Nat.le_max_right _ _)
      · simp only [if_neg h]
        rw [get_ts_fst]
        exact Nat.le_trans (Nat.le_max_right _ _) (Nat.le_max_left _ _)

/-- A read marks `last_op_was_read`. -/
theorem ts_step_read_flag (w : Timestamp) (st : Coord) :
    (ts_step TsOp.read w st).2.last_op_was_read = true := rfl

/-- A write issued while `last_op_was_read` is set returns a timestamp
strictly greater than `read_lower_bound` (the value the read returned). -/
theorem ts_step_write_after_read (w : Timestamp) (st : Coord)
    (h : st.last_op_was_read = true) :
    st.read_lower_bound < (ts_step TsOp.write w st).1 := by
  show st.read_lower_bound < (get_write_ts w st).1
  unfold get_write_ts
  simp only [h, if_pos]
  refine Nat.lt_of_lt_of_le (Nat.lt_succ_self _) ?_
  exact Nat.le_trans (Nat.le_max_right _ _) (Nat.le_max_left _ _)

/-- The returned timestamps, prefixed with the initial lower bound, form a
non-decreasing chain. -/
theorem ts_run_chain (ops : List (TsOp × Timestamp)) (st : Coord) :
    List.Chain' (fun a b => a ≤ b) (st.read_lower_bound :: (ts_run ops st).1) := by
  induction ops generalizing st with
  | nil => simp [ts_run]
  | cons p rest ih =>
      obtain ⟨op, w⟩ := p
      simp only [ts_run]
      rw [List.chain'_cons]
      constructor
      · exact ts_step_ge op w st
      · have := ih (ts_step op w st).2
        rwa [ts_step_rlb_eq] at this

/-- Splitting a run of oracle calls. -/
theorem ts_run_append (l₁ l₂ : List (TsOp × Timestamp)) (st : Coord) :
    ts_run (l₁ ++ l₂) st =
      ((ts_run l₁ st).1 ++ (ts_run l₂ (ts_run l₁ st).2).1, (ts_run l₂ (ts_run l₁ st).2).2) := by
  induction l₁ generalizing st with
  | nil => simp [ts_run]
  | cons p rest ih =>
      obtain ⟨op, w⟩ := p
      simp only [List.cons_append, ts_run, List.append_eq, ih]

/-- Claim C4: over any sequence of read/write oracle calls (with arbitrary
wall-clock observations), the returned timestamps are non-decreasing, and
a write immediately following a read returns strictly more than that
read. -/
theorem C4_ts_monotone (st : Coord) (ops : List (TsOp × Timestamp)) :
    List.Chain' (fun a b => a ≤ b) (ts_run ops st).1 ∧
      (∀ pre w w' rest,
        ops = pre ++ (TsOp.read, w) :: (TsOp.write, w') :: rest →
        ∃ r wr tail, (ts_run ops st).1 = (ts_run pre st).1 ++ r :: wr :: tail ∧ r < wr) := by
  constructor
  · exact (ts_run_chain ops st).tail
  · intro pre w w' rest hops
    subst hops
    rw [ts_run_append]
    set st₁ := (ts_run pre st).2 with hst₁
    refine ⟨(ts_step TsOp.read w st₁).1,
      (ts_step TsOp.write w' (ts_step TsOp.read w st₁).2).1,
      (ts_run rest (ts_step TsOp.write w' (ts_step TsOp.read w st₁).2).2).1, ?_, ?_⟩
    · simp only [ts_run]
    · have hflag := ts_step_read_flag w st₁
      have := ts_step_write_after_read w' (ts_step TsOp.read w st₁).2 hflag
      rwa [ts_step_rlb_eq] at this

/-- A freshly bootstrapped oracle state. -/
def oracle_state : Coord :=
  { indexes := []
    since_updates := []
    logical_compaction_window_ms := none
    num_timely_workers := 1
    read_lower_bound := 0
    closed_up_to := 0
    last_op_was_read := false
    need_advance := false }

/-- Witness for C4: a concrete read at wall-clock 5 followed by a write at
the same wall-clock millisecond returns strictly increasing values. -/
theorem C4_ts_monotone_witness :
    ([((TsOp.read : TsOp), (5 : Timestamp)), (TsOp.write, 5)] =
        [] ++ (TsOp.read, 5) :: (TsOp.write, 5) :: []) ∧
      ∃ r wr tail,
        (ts_run [(TsOp.read, 5), (TsOp.write, 5)] oracle_state).1 =
          (ts_run [] oracle_state).1 ++ r :: wr :: tail ∧ r < wr :=
  ⟨rfl, (C4_ts_monotone oracle_state [(TsOp.read, 5), (TsOp.write, 5)]).2 [] 5 5 [] rfl⟩

/-! ### Helper lemmas about peek-response aggregation -/

theorem fold_peek_error_left (e : String) (r : PeekResponse) :
    fold_peek (PeekResponse.Error e) r = PeekResponse.Error e := by
  cases r <;> rfl

theorem foldl_fold_peek_error (l : List PeekResponse) (e : String) :
    l.foldl fold_peek (PeekResponse.Error e) = PeekResponse.Error e := by
  induction l with
  | nil => rfl
  | cons r rest ih => rw [List.foldl_cons, fold_peek_error_left, ih]

theorem foldl_fold_peek_canceled (l : List PeekResponse)
    (herr : ∀ e, PeekResponse.Error e ∉ l) :
    l.foldl fold_peek PeekResponse.Canceled = PeekResponse.Canceled := by
  induction l with
  | nil => rfl
  | cons r rest ih =>
      cases r with
      | Rows rs => exact ih (fun e he => herr e (List.mem_cons_of_mem _ he))
      | Error e => exact absurd (List.mem_cons_self _ _) (herr e)
      | Canceled => exact ih (fun e he => herr e (List.mem_cons_of_mem _ he))

theorem foldl_fold_peek_rows (l : List PeekResponse) (acc : List Row)
    (herr : ∀ e, PeekResponse.Error e ∉ l) (hc : PeekResponse.Canceled ∉ l) :
    l.foldl fold_peek (PeekResponse.Rows acc) =
      PeekResponse.Rows (acc ++ (l.map rowsOf).flatten) := by
  induction l generalizing acc with
  | nil => simp
  | cons r rest ih =>
      cases r with
      | Rows rs =>
          rw [List.foldl_cons]
          show rest.foldl fold_peek (PeekResponse.Rows (acc ++ rs)) = _
          rw [ih (acc ++ rs) (fun e he => herr e (List.mem_cons_of_mem _ he))
            (fun hce => hc (List.mem_cons_of_mem _ hce))]
          simp [rowsOf]
      | Error e => exact absurd (List.mem_cons_self _ _) (herr e)
      | Canceled => exact absurd (List.mem_cons_self _ _) hc

theorem foldl_fold_peek_rows_canceled (l : List PeekResponse) (acc : List Row)
    (herr : ∀ e, PeekResponse.Error e ∉ l) (hc : PeekResponse.Canceled ∈ l) :
    l.foldl fold_peek (PeekResponse.Rows acc) = PeekResponse.Canceled := by
  induction l generalizing acc with
  | nil => exact absurd hc (List.not_mem_nil _)
  | cons r rest ih =>
      cases r with
      | Rows rs =>
          rw [List.foldl_cons]
          show rest.foldl fold_peek (PeekResponse.Rows (acc ++ rs)) = _
          have hc' : PeekResponse.Canceled ∈ rest := by
            rcases List.mem_cons.mp hc with h | h
            · exact absurd h.symm (by simp)
            · exact h
          exact ih (acc ++ rs) (fun e he => herr e (List.mem_cons_of_mem _ he)) hc'
      | Error e => exact absurd (List.mem_cons_self _ _) (herr e)
      | Canceled =>
          rw [List.foldl_cons]
          exact foldl_fold_peek_canceled rest
            (fun e he => herr e (List.mem_cons_of_mem _ he))

theorem foldl_fold_peek_has_error (l : List PeekResponse) (e : String)
    (he : PeekResponse.Error e ∈ l) (acc : PeekResponse) :
    ∃ e', l.foldl fold_peek acc = PeekResponse.Error e' := by
  induction l generalizing acc with
  | nil => exact absurd he (List.not_mem_nil _)
  | cons r rest ih =>
      rw [List.foldl_cons]
      rcases List.mem_cons.mp he with h | h
      · subst h
        cases acc with
        | Rows rs => exact ⟨e, foldl_fold_peek_error rest e⟩
        | Error e₀ =>
            rw [fold_peek_error_left]
            exact ⟨e₀, foldl_fold_peek_error rest e₀⟩
        | Canceled => exact ⟨e, foldl_fold_peek_error rest e⟩
      · exact ih h _

/-- Claim C8: aggregating worker peek responses, an error dominates, then
cancellation, and otherwise the rows of all workers are concatenated and
the row-set finishing applied. -/
theorem C8_peek_aggregation (resps : List PeekResponse) (fin : List Row → List Row) :
    ((∃ e, PeekResponse.Error e ∈ resps) →
        ∃ e, peek_aggregate resps = PeekResponse.Error e) ∧
      ((∀ e, PeekResponse.Error e ∉ resps) → PeekResponse.Canceled ∈ resps →
        peek_aggregate resps = PeekResponse.Canceled) ∧
      ((∀ e, PeekResponse.Error e ∉ resps) → PeekResponse.Canceled ∉ resps →
        peek_aggregate resps = PeekResponse.Rows ((resps.map rowsOf).flatten) ∧
          apply_finishing fin (peek_aggregate resps) =
            PeekResponse.Rows (fin ((resps.map rowsOf).flatten))) := by
  refine ⟨?_, ?_, ?_⟩
  · rintro ⟨e, he⟩
    exact foldl_fold_peek_has_error resps e he _
  · intro herr hc
    exact foldl_fold_peek_rows_canceled resps [] herr hc
  · intro herr hc
    have hrows : peek_aggregate resps = PeekResponse.Rows ((resps.map rowsOf).flatten) := by
      unfold peek_aggregate
      rw [foldl_fold_peek_rows resps [] herr hc]
      rfl
    exact ⟨hrows, by rw [hrows]; rfl⟩

/-- Witness for C8 at concrete inputs: an error-free, cancellation-free
response list aggregates to the concatenation of the row lists with the
finishing applied. -/
theorem C8_peek_aggregation_witness :
    ((∀ e, PeekResponse.Error e ∉ [PeekResponse.Rows [1, 2], PeekResponse.Rows [3]]) ∧
        PeekResponse.Canceled ∉ [PeekResponse.Rows [1, 2], PeekResponse.Rows [3]]) ∧
      (peek_aggregate [PeekResponse.Rows [1, 2], PeekResponse.Rows [3]] =
          PeekResponse.Rows
            (([PeekResponse.Rows [1, 2], PeekResponse.Rows [3]].map rowsOf).flatten) ∧
        apply_finishing List.reverse
            (peek_aggregate [PeekResponse.Rows [1, 2], PeekResponse.Rows [3]]) =
          PeekResponse.Rows (List.reverse
            (([PeekResponse.Rows [1, 2], PeekResponse.Rows [3]].map rowsOf).flatten))) :=
  ⟨⟨fun e he => by simp at he, by simp⟩,
    (C8_peek_aggregation [PeekResponse.Rows [1, 2], PeekResponse.Rows [3]] List.reverse).2.2
      (fun e he => by simp at he) (by simp)⟩

/-! ### Claim theorem: sink-connector completion -/

/-- Claim C7: on a successful connector build, if the sink's catalog entry
still exists the placeholder is replaced by a Ready connector, a sink
dataflow is shipped and the client receives `CreatedSink { existed :=
false }`; if the entry has been dropped meanwhile the client still
receives that success response and no dataflow is shipped.  On a failed
build, the placeholder item is dropped and the error is sent. -/
theorem C7_sink_connector_ready (catalog : List (GlobalId × SinkConnectorState))
    (id : GlobalId) :
    ((catalog.find? (fun p => decide (p.1 = id))).isSome = true →
        (message_sink_connector_ready catalog id true).response =
            SinkResponse.CreatedSink false ∧
          (message_sink_connector_ready catalog id true).shipped_sink_dataflow = true ∧
          (∀ p ∈ (message_sink_connector_ready catalog id true).catalog,
            p.1 = id → p.2 = SinkConnectorState.Ready) ∧
          (id, SinkConnectorState.Ready) ∈ (message_sink_connector_ready catalog id true).catalog ∧
          (∀ p ∈ catalog, p.1 ≠ id →
            p ∈ (message_sink_connector_ready catalog id true).catalog)) ∧
      ((catalog.find? (fun p => decide (p.1 = id))).isSome = false →
        (message_sink_connector_ready catalog id true).response =
            SinkResponse.CreatedSink false ∧
          (message_sink_connector_ready catalog id true).shipped_sink_dataflow = false ∧
          (message_sink_connector_ready catalog id true).catalog = catalog) ∧
      ((message_sink_connector_ready catalog id false).response = SinkResponse.SinkError ∧
        (message_sink_connector_ready catalog id false).shipped_sink_dataflow = false ∧
        ∀ p, p ∈ (message_sink_connector_ready catalog id false).catalog ↔
          p ∈ catalog ∧ p.1 ≠ id) := by
  refine ⟨?_, ?_, ?_⟩
  · intro hpresent
    simp only [message_sink_connector_ready, if_pos hpresent, if_pos rfl]
    refine ⟨rfl, rfl, ?_, ?_, ?_⟩
    · intro p hp hpid
      rcases List.mem_map.mp hp with ⟨q, hq, hqe⟩
      by_cases h : q.1 = id
      · rw [if_pos h] at hqe
        rw [← hqe]
      · rw [if_neg h] at hqe
        exact absurd (hqe ▸ hpid) h
    · rcases List.find?_isSome.mp hpresent with ⟨q, hq, hqp⟩
      have hqid : q.1 = id := of_decide_eq_true hqp
      refine List.mem_map.mpr ⟨q, hq, ?_⟩
      rw [if_pos hqid, hqid]
    · intro p hp hpid
      refine List.mem_map.mpr ⟨p, hp, ?_⟩
      rw [if_neg hpid]
  · intro habsent
    rw [message_sink_connector_ready, if_pos rfl, if_neg (by rw [habsent]; exact Bool.false_ne_true)]
    exact ⟨rfl, rfl, rfl⟩
  · rw [message_sink_connector_ready, if_neg Bool.false_ne_true]
    refine ⟨rfl, rfl, ?_⟩
    intro p
    constructor
    · intro hp
      have h := List.mem_filter.mp hp
      exact ⟨h.1, of_decide_eq_true h.2⟩
    · intro hp
      exact List.mem_filter.mpr ⟨hp.1, decide_eq_true hp.2⟩

/-- Witness for C7 at concrete inputs: a pending sink that still exists
when the build succeeds. -/
theorem C7_sink_connector_ready_witness :
    (([(GlobalId.user 3, SinkConnectorState.Pending)].find?
        (fun p => decide (p.1 = GlobalId.user 3))).isSome = true ∧
      (message_sink_connector_ready [(GlobalId.user 3, SinkConnectorState.Pending)]
            (GlobalId.user 3) true).response = SinkResponse.CreatedSink false ∧
        (message_sink_connector_ready [(GlobalId.user 3, SinkConnectorState.Pending)]
            (GlobalId.user 3) true).shipped_sink_dataflow = true ∧
        (∀ p ∈ (message_sink_connector_ready [(GlobalId.user 3, SinkConnectorState.Pending)]
            (GlobalId.user 3) true).catalog,
          p.1 = GlobalId.user 3 → p.2 = SinkConnectorState.Ready) ∧
        (GlobalId.user 3, SinkConnectorState.Ready) ∈
          (message_sink_connector_ready [(GlobalId.user 3, SinkConnectorState.Pending)]
            (GlobalId.user 3) true).catalog ∧
        (∀ p ∈ [(GlobalId.user 3, SinkConnectorState.Pending)], p.1 ≠ GlobalId.user 3 →
          p ∈ (message_sink_connector_ready [(GlobalId.user 3, SinkConnectorState.Pending)]
            (GlobalId.user 3) true).catalog)) :=
  ⟨by decide,
    (C7_sink_connector_ready [(GlobalId.user 3, SinkConnectorState.Pending)]
      (GlobalId.user 3)).1 (by decide)⟩

/-! ### Helper lemmas about antichains and dataflow shipping -/

theorem acLe_refl (a : Antichain) : acLe a a = true := by
  cases a with
  | none => rfl
  | some x => simp [acLe]

theorem acLe_acJoin_right (j a : Antichain) : acLe j (acJoin a j) = true := by
  cases j with
  | none => cases a <;> rfl
  | some x =>
      cases a with
      | none => rfl
      | some y => simp [acJoin, acLe]

/-- Inserting the same record for every id of a list: lookup afterwards. -/
theorem lookupIdx_foldl_insert (l : List GlobalId) (v : Frontiers)
    (ixs : List (GlobalId × Frontiers)) (id : GlobalId) :
    lookupIdx (l.foldl (fun a i => insertIdx a i v) ixs) id =
      if id ∈ l then some v else lookupIdx ixs id := by
  induction l generalizing ixs with
  | nil => simp
  | cons i rest ih =>
      rw [List.foldl_cons, ih]
      by_cases hr : id ∈ rest
      · simp [hr]
      · by_cases hi : id = i
        · simp [hi, hr, lookupIdx_insertIdx_self]
        · simp only [hr, if_false, List.mem_cons, hi, false_or]
          rw [lookupIdx_insertIdx_ne _ _ _ _ hi]

/-- Claim C5: the dataflow broadcast by `ship_dataflow` has an `as_of` at
least the join of the since frontiers of its imported indexes — a smaller
caller-supplied `as_of` is raised to the join, an absent one is bound to
exactly the join — and every exported index becomes tracked with a
`Frontiers` record whose since is that join and whose compaction window is
the coordinator default. -/
theorem C5_ship_dataflow (st : Coord) (d : DataflowDesc) :
    (∃ a, (ship_dataflow st d).2.as_of = some a ∧
        acLe (least_valid_since st d.index_imports) a = true) ∧
      (d.as_of = none →
        (ship_dataflow st d).2.as_of = some (least_valid_since st d.index_imports)) ∧
      (∀ a, d.as_of = some a → acLe (least_valid_since st d.index_imports) a = false →
        (ship_dataflow st d).2.as_of =
          some (acJoin a (least_valid_since st d.index_imports))) ∧
      (∀ id ∈ d.index_exports,
        since_of (ship_dataflow st d).1 id = some (least_valid_since st d.index_imports) ∧
          (lookupIdx (ship_dataflow st d).1.indexes id).map Frontiers.compaction_window_ms =
            some st.logical_compaction_window_ms) := by
  have hsince : (d.index_imports.foldl
      (fun acc id => acJoin acc ((since_of st id).getD (some 0))) (some 0)) =
      least_valid_since st d.index_imports := rfl
  refine ⟨?_, ?_, ?_, ?_⟩
  · cases hao : d.as_of with
    | none =>
        refine ⟨least_valid_since st d.index_imports, ?_, acLe_refl _⟩
        simp only [ship_dataflow, hao, hsince]
    | some a =>
        by_cases hle : acLe (least_valid_since st d.index_imports) a = true
        · refine ⟨a, ?_, hle⟩
          simp only [ship_dataflow, hao, hsince, if_pos hle]
        · refine ⟨acJoin a (least_valid_since st d.index_imports), ?_, acLe_acJoin_right _ _⟩
          simp only [ship_dataflow, hao, hsince, if_neg hle]
  · intro hao
    simp only [ship_dataflow, hao, hsince]
  · intro a hao hlt
    simp only [ship_dataflow, hao, hsince, hlt]
    simp
  · intro id hid
    constructor
    · simp only [ship_dataflow, since_of, hsince]
      rw [lookupIdx_foldl_insert, if_pos hid]
      rfl
    · simp only [ship_dataflow, hsince]
      rw [lookupIdx_foldl_insert, if_pos hid]
      rfl

/-- A dataflow importing the arrangement of scenario S5 and exporting a
new transient index, with no caller-supplied `as_of`. -/
def c5_dataflow : DataflowDesc :=
  { index_imports := [s5_id]
    index_exports := [GlobalId.transient 0]
    as_of := none }

/-- Witness for C5 at concrete inputs. -/
theorem C5_ship_dataflow_witness :
    (c5_dataflow.as_of = none ∧
        (ship_dataflow s5_state c5_dataflow).2.as_of =
          some (least_valid_since s5_state c5_dataflow.index_imports)) ∧
      (GlobalId.transient 0 ∈ c5_dataflow.index_exports ∧
        since_of (ship_dataflow s5_state c5_dataflow).1 (GlobalId.transient 0) =
            some (least_valid_since s5_state c5_dataflow.index_imports) ∧
          (lookupIdx (ship_dataflow s5_state c5_dataflow).1.indexes
              (GlobalId.transient 0)).map Frontiers.compaction_window_ms =
            some s5_state.logical_compaction_window_ms) :=
  ⟨⟨rfl, (C5_ship_dataflow s5_state c5_dataflow).2.1 rfl⟩,
    ⟨by decide,
      (C5_ship_dataflow s5_state c5_dataflow).2.2.2 (GlobalId.transient 0) (by decide)⟩⟩

/-! ### Helper lemmas about timestamp determination -/

theorem acLessEqual_acJoin (a b : Antichain) (t : Timestamp) :
    acLessEqual (acJoin a b) t = (acLessEqual a t && acLessEqual b t) := by
  cases a with
  | none => cases b <;> rfl
  | some x =>
      cases b with
      | none => simp [acJoin, acLessEqual]
      | some y => simp [acJoin, acLessEqual, Nat.max_le]

theorem acLessEqual_foldl_acJoin (f : GlobalId → Antichain) (ids : List GlobalId)
    (a : Antichain) (t : Timestamp) :
    acLessEqual (ids.foldl (fun acc id => acJoin acc (f id)) a) t =
      (acLessEqual a t && ids.all (fun id => acLessEqual (f id) t)) := by
  induction ids generalizing a with
  | nil => simp
  | cons i rest ih =>
      rw [List.foldl_cons, ih, List.all_cons, acLessEqual_acJoin, Bool.and_assoc]

theorem acLessEqual_least_valid_since (st : Coord) (ids : List GlobalId) (t : Timestamp) :
    acLessEqual (least_valid_since st ids) t =
      ids.all (fun id => acLessEqual ((since_of st id).getD (some 0)) t) := by
  unfold least_valid_since
  rw [acLessEqual_foldl_acJoin]
  simp [acLessEqual]

/-- Claim C3: with an explicitly requested timestamp, `determine_timestamp`
returns exactly that timestamp iff the least valid since covers it;
otherwise it returns the timestamp-invalid error listing precisely the
offending index ids with their since frontiers — no other error can occur
and the state is untouched. -/
theorem C3_determine_at_timestamp (cat : CatalogView) (st : Coord)
    (wall t : Timestamp) (uses_ids : List GlobalId) :
    (determine_timestamp cat st wall uses_ids (PeekWhen.AtTimestamp t)).2 = st ∧
      ((determine_timestamp cat st wall uses_ids (PeekWhen.AtTimestamp t)).1 =
          Except.ok t ↔
        acLessEqual (least_valid_since st (cat.nearest_indexes uses_ids).1) t = true) ∧
      (acLessEqual (least_valid_since st (cat.nearest_indexes uses_ids).1) t = false →
        ∃ l,
          (determine_timestamp cat st wall uses_ids (PeekWhen.AtTimestamp t)).1 =
              Except.error (TimestampError.notValidForAllInputs t l) ∧
            l ≠ [] ∧
            (∀ x ∈ l, x.2 = since_of st x.1 ∧ acLessEqual (x.2.getD none) t = false) ∧
            (∀ id, (id, since_of st id) ∈ l ↔
              id ∈ (cat.nearest_indexes uses_ids).1 ∧
                acLessEqual ((since_of st id).getD none) t = false)) := by
  by_cases h : acLessEqual (least_valid_since st (cat.nearest_indexes uses_ids).1) t = true
  · refine ⟨?_, ?_, ?_⟩
    · simp only [determine_timestamp, if_pos h]
    · simp only [determine_timestamp, if_pos h]
      simp [h]
    · intro hfalse
      rw [h] at hfalse
      exact absurd hfalse (by simp)
  · have h' : acLessEqual (least_valid_since st (cat.nearest_indexes uses_ids).1) t = false :=
      Bool.eq_false_iff.mpr h
    refine ⟨?_, ?_, ?_⟩
    · simp only [determine_timestamp, if_neg h]
    · simp only [determine_timestamp, if_neg h]
      simp [h']
    · intro _
      refine ⟨((cat.nearest_indexes uses_ids).1.filter
          (fun id => !(acLessEqual ((since_of st id).getD none) t))).map
          (fun id => (id, since_of st id)), ?_, ?_, ?_, ?_⟩
      · simp only [determine_timestamp, if_neg h]
      · -- the least valid since not covering `t` forces an offending id,
        -- and an offending id necessarily has a tracked, uncovering since
        rw [acLessEqual_least_valid_since] at h'
        have hnall : ¬ ∀ id ∈ (cat.nearest_indexes uses_ids).1,
            acLessEqual ((since_of st id).getD (some 0)) t = true := by
          intro hall
          rw [← List.all_eq_true] at hall
          rw [hall] at h'
          exact absurd h' (by simp)
        push_neg at hnall
        obtain ⟨id, hid, hne⟩ := hnall
        have hfalse : acLessEqual ((since_of st id).getD (some 0)) t = false :=
          Bool.eq_false_iff.mpr hne
        cases hs : since_of st id with
        | none =>
            rw [hs] at hfalse
            simp [acLessEqual] at hfalse
        | some s =>
            refine List.ne_nil_of_mem (List.mem_map.mpr
              ⟨id, List.mem_filter.mpr ⟨hid, ?_⟩, rfl⟩)
            rw [hs] at hfalse ⊢
            simpa using hfalse
      · intro x hx
        rcases List.mem_map.mp hx with ⟨id, hid, hxe⟩
        have hpred := (List.mem_filter.mp hid).2
        constructor
        · rw [← hxe]
        · rw [← hxe]
          simpa using hpred
      · intro id
        constructor
        · intro hmem
          rcases List.mem_map.mp hmem with ⟨id', hid', he⟩
          have : id' = id := congrArg Prod.fst he
          subst this
          have h₁ := List.mem_filter.mp hid'
          exact ⟨h₁.1, by simpa using h₁.2⟩
        · intro ⟨hmem, hpred⟩
          refine List.mem_map.mpr ⟨id, List.mem_filter.mpr ⟨hmem, by simpa using hpred⟩, rfl⟩

/-- A catalog slice routing every used id to itself as its nearest index
and reporting all dependencies materialized, with no table uses. -/
def c3_cat : CatalogView :=
  { nearest_indexes := fun l => (l, true)
    uses_tables := fun _ => false }

/-- The arrangement id of the C3 witness. -/
def c3_id : GlobalId := GlobalId.user 4

/-- A state whose only arrangement has been compacted to since 10. -/
def c3_state : Coord :=
  { indexes := [(c3_id, { upper := [(20, 1)], since := some 10, compaction_window_ms := none })]
    since_updates := []
    logical_compaction_window_ms := none
    num_timely_workers := 1
    read_lower_bound := 0
    closed_up_to := 0
    last_op_was_read := false
    need_advance := false }

/-- Witness for C3 at a concrete input: requesting timestamp 5 below the
since frontier 10 yields the invalid-timestamp error listing the offending
id with its since. -/
theorem C3_determine_at_timestamp_witness :
    acLessEqual (least_valid_since c3_state (c3_cat.nearest_indexes [c3_id]).1) 5 = false ∧
      ∃ l,
        (determine_timestamp c3_cat c3_state 0 [c3_id] (PeekWhen.AtTimestamp 5)).1 =
            Except.error (TimestampError.notValidForAllInputs 5 l) ∧
          l ≠ [] ∧
          (∀ x ∈ l, x.2 = since_of c3_state x.1 ∧ acLessEqual (x.2.getD none) 5 = false) ∧
          (∀ id, (id, since_of c3_state id) ∈ l ↔
            id ∈ (c3_cat.nearest_indexes [c3_id]).1 ∧
              acLessEqual ((since_of c3_state id).getD none) 5 = false) :=
  ⟨by decide, (C3_determine_at_timestamp c3_cat c3_state 0 5 [c3_id]).2.2 (by decide)⟩

theorem advance_if_below (s c : Timestamp) :
    (if acLessEqual (some s) c then c else advance_by c (some s)) = max c s := by
  by_cases h : s ≤ c
  · rw [if_pos (by simpa [acLessEqual] using h), Nat.max_eq_left h]
  · rw [if_neg (by simpa [acLessEqual] using h)]
    rfl

theorem acLessEqual_some_max (s c : Timestamp) :
    acLessEqual (some s) (max c s) = true := by
  simp [acLessEqual]

/-- Claim C6: `determine_timestamp` at `Immediately` with all dependencies
materialized: a table dependency makes the candidate the read timestamp;
otherwise the greatest open upper drives it — predecessor of a positive
element, the no-complete-timestamps error at element 0, and the maximum
timestamp for an empty upper — and a candidate below the least valid
since is advanced to it before validation (hence the `max` with the since
element). -/
theorem C6_determine_immediately (cat : CatalogView) (st : Coord) (wall : Timestamp)
    (uses_ids : List GlobalId)
    (hcomplete : (cat.nearest_indexes uses_ids).2 = true) :
    (uses_ids.any (fun id => cat.uses_tables id) = true →
        ∀ s, least_valid_since st (cat.nearest_indexes uses_ids).1 = some s →
          (determine_timestamp cat st wall uses_ids PeekWhen.Immediately).1 =
            Except.ok (max (max wall st.read_lower_bound) s)) ∧
      (uses_ids.any (fun id => cat.uses_tables id) = false →
        ∀ u, greatest_open_upper st (cat.nearest_indexes uses_ids).1 = some (u + 1) →
          ∀ s, least_valid_since st (cat.nearest_indexes uses_ids).1 = some s →
            (determine_timestamp cat st wall uses_ids PeekWhen.Immediately).1 =
              Except.ok (max u s)) ∧
      (uses_ids.any (fun id => cat.uses_tables id) = false →
        greatest_open_upper st (cat.nearest_indexes uses_ids).1 = some 0 →
          ∃ l, (determine_timestamp cat st wall uses_ids PeekWhen.Immediately).1 =
              Except.error (TimestampError.noCompleteTimestamps l) ∧
            ∀ id, id ∈ l ↔ id ∈ (cat.nearest_indexes uses_ids).1 ∧
              acLessEqual ((upper_of st id).getD none) 0 = true) ∧
      (uses_ids.any (fun id => cat.uses_tables id) = false →
        greatest_open_upper st (cat.nearest_indexes uses_ids).1 = none →
          ∀ s, least_valid_since st (cat.nearest_indexes uses_ids).1 = some s →
            (determine_timestamp cat st wall uses_ids PeekWhen.Immediately).1 =
              Except.ok (max timestampMax s)) := by
  refine ⟨?_, ?_, ?_, ?_⟩
  · intro h1 s hsince
    have hc0 : (get_read_ts wall st).1 = max wall st.read_lower_bound := get_ts_fst wall st
    simp only [determine_timestamp, hcomplete, h1, hsince, Bool.not_true,
      Bool.false_eq_true, if_false, eq_self_iff_true, if_true]
    rw [advance_if_below s (get_read_ts wall st).1, hc0]
    simp [acLessEqual_some_max]
  · intro h1 u hupper s hsince
    simp only [determine_timestamp, hcomplete, h1, hsince, hupper, Bool.not_true,
      Bool.false_eq_true, if_false]
    rw [if_pos (Nat.succ_pos u)]
    simp only [Nat.add_sub_cancel]
    rw [advance_if_below s u]
    simp [acLessEqual_some_max]
  · intro h1 hupper
    simp only [determine_timestamp, hcomplete, h1, hupper, Bool.not_true,
      Bool.false_eq_true, if_false]
    rw [if_neg (by decide : ¬ (0 < 0))]
    refine ⟨(cat.nearest_indexes uses_ids).1.filter
        (fun id => acLessEqual ((upper_of st id).getD none) 0), ?_, ?_⟩
    · simp
    · intro id
      constructor
      · intro hmem
        have h := List.mem_filter.mp hmem
        exact ⟨h.1, h.2⟩
      · intro ⟨hmem, hpred⟩
        exact List.mem_filter.mpr ⟨hmem, hpred⟩
  · intro h1 hupper s hsince
    simp only [determine_timestamp, hcomplete, h1, hsince, hupper, Bool.not_true,
      Bool.false_eq_true, if_false]
    rw [advance_if_below s timestampMax]
    simp [acLessEqual_some_max]

/-- The arrangement id of the C6 witness. -/
def c6_id : GlobalId := GlobalId.user 5

/-- A state whose only arrangement has its upper frontier at 10 and its
since at 0. -/
def c6_state : Coord :=
  { indexes := [(c6_id, { upper := [(10, 1)], since := some 0, compaction_window_ms := none })]
    since_updates := []
    logical_compaction_window_ms := none
    num_timely_workers := 1
    read_lower_bound := 0
    closed_up_to := 0
    last_op_was_read := false
    need_advance := false }

/-- Witness for C6 at a concrete input: an upper of 10 yields the
candidate 9, already at or above the since 0. -/
theorem C6_determine_immediately_witness :
    ((c3_cat.nearest_indexes [c6_id]).2 = true ∧
        [c6_id].any (fun id => c3_cat.uses_tables id) = false ∧
        greatest_open_upper c6_state (c3_cat.nearest_indexes [c6_id]).1 = some (9 + 1) ∧
        least_valid_since c6_state (c3_cat.nearest_indexes [c6_id]).1 = some 0) ∧
      (determine_timestamp c3_cat c6_state 0 [c6_id] PeekWhen.Immediately).1 =
        Except.ok (max 9 0) :=
  ⟨⟨by decide, by decide, by decide, by decide⟩,
    (C6_determine_immediately c3_cat c6_state 0 [c6_id] (by decide)).2.1
      (by decide) 9 (by decide) 0 (by decide)⟩

end Mz
